import Mathlib

/-!
Shallow embedding of `src/go/main.go`, a small SQLite-like in-memory table
with a paged byte store, a fixed-width binary row codec, a line parser and
an executor.

Modelling conventions:
* Go byte slices and strings become `List Nat` (each element a byte value);
  ASCII string literals are converted with `strBytes`.
* Go's `copy(dst, src)` (copying `min |dst| |src|` bytes) becomes `goCopy`.
* Writing through a sub-slice `buf[lo:hi]` becomes `storeSlice`: the window
  is copied out, written, and spliced back — which is exactly the effect the
  aliased in-place write has on the underlying buffer.
* `uint32` values are `Nat` together with a `< 2^32` hypothesis where it
  matters; `binary.LittleEndian.PutUint32/Uint32` become
  `putUint32LE`/`getUint32LE`.
* The fixed page array `[TABLE_MAX_PAGES][]byte` (a `nil`-able slice per
  page) becomes `pages : Nat → Option (List Nat)`; only indices below
  `TABLE_MAX_PAGES` are ever used by the modelled operations.
* `strings.Fields` splits on runs of whitespace; for byte strings this is
  Go's ASCII fast path with space set `'\t' '\n' '\v' '\f' '\r' ' '`.
-/

/-! ### Constants (from the `const` blocks of main.go) -/

def COLUMN_USERNAME_SIZE : Nat := 32

def COLUMN_EMAIL_SIZE : Nat := 255

def PAGE_SIZE : Nat := 4096

def TABLE_MAX_PAGES : Nat := 100

def ROW_SIZE : Nat := 4 + COLUMN_USERNAME_SIZE + COLUMN_EMAIL_SIZE

def ROWS_PER_PAGE : Nat := PAGE_SIZE / ROW_SIZE

def TABLE_MAX_ROWS : Nat := ROWS_PER_PAGE * TABLE_MAX_PAGES

/-! ### Byte-level primitives -/

/-- Go's `copy(dst, src)`: overwrites the first `min |dst| |src|` bytes of
`dst` with those of `src`, leaving the rest of `dst` unchanged. -/
def goCopy (dst src : List Nat) : List Nat :=
  src.take (min dst.length src.length) ++ dst.drop (min dst.length src.length)

/-- Writing a source into the sub-slice `buf[lo:hi]` with Go `copy`
semantics: the bytes outside `[lo, hi)` are untouched. -/
def storeSlice (buf : List Nat) (lo hi : Nat) (src : List Nat) : List Nat :=
  buf.take lo ++ goCopy ((buf.drop lo).take (hi - lo)) src ++ buf.drop hi

/-- `binary.LittleEndian.PutUint32`: the four little-endian bytes of `n`
(reduced mod 2^32, as the Go `uint32` argument is). -/
def putUint32LE (n : Nat) : List Nat :=
  [n % 256, n / 256 % 256, n / 65536 % 256, n / 16777216 % 256]

/-- `binary.LittleEndian.Uint32` on the first four bytes. -/
def getUint32LE (bs : List Nat) : Nat :=
  bs.getD 0 0 + bs.getD 1 0 * 256 + bs.getD 2 0 * 65536 + bs.getD 3 0 * 16777216

/-- Bytes of an ASCII string literal. -/
def strBytes (s : String) : List Nat :=
  s.toList.map Char.toNat

/-- Go's ASCII whitespace set used by `strings.Fields`. -/
def isGoSpace (b : Nat) : Bool :=
  b == 9 || b == 10 || b == 11 || b == 12 || b == 13 || b == 32

/-- Worker for `fields`: `acc` holds the current word, reversed. -/
def fieldsAux : List Nat → List Nat → List (List Nat)
  | [], acc => if acc.isEmpty then [] else [acc.reverse]
  | b :: rest, acc =>
    if isGoSpace b then
      if acc.isEmpty then fieldsAux rest []
      else acc.reverse :: fieldsAux rest []
    else fieldsAux rest (b :: acc)

/-- `strings.Fields`: split around runs of whitespace, dropping empties. -/
def fields (line : List Nat) : List (List Nat) :=
  fieldsAux line []

/-- `strconv.ParseUint(s, 10, 32)`: `some n` exactly when `s` is a nonempty
string of decimal digits whose value fits in 32 bits. -/
def parseUint (s : List Nat) : Option Nat :=
  if s.isEmpty then none
  else if s.all (fun b => 48 ≤ b && b ≤ 57) then
    let n := s.foldl (fun n b => n * 10 + (b - 48)) 0
    if n < 4294967296 then some n else none
  else none

/-! ### Data model -/

/-- `Row`: id is a `uint32`; `Username`/`Email` are fixed-size byte arrays
(lengths `COLUMN_USERNAME_SIZE` and `COLUMN_EMAIL_SIZE`, carried as
hypotheses where needed). -/
structure Row where
  id : Nat
  username : List Nat
  email : List Nat
deriving DecidableEq

inductive StatementType where
  | StatementInsert
  | StatementSelect
deriving DecidableEq

structure Statement where
  type : StatementType
  rowToInsert : Row
deriving DecidableEq

inductive PrepareResult where
  | PrepareSuccess
  | PrepareSyntaxError
  | PrepareUnrecognizedStatement
deriving DecidableEq

inductive ExecuteResult where
  | ExecuteSuccess
  | ExecuteTableFull
deriving DecidableEq

/-- `Table`: row count plus the lazily allocated page array. -/
structure Table where
  numRows : Nat
  pages : Nat → Option (List Nat)

/-- The Go zero value of `Row`. -/
def emptyRow : Row :=
  { id := 0
    username := List.replicate COLUMN_USERNAME_SIZE 0
    email := List.replicate COLUMN_EMAIL_SIZE 0 }

/-- The Go zero value of `Statement` (`&Statement{}` in the main loop). -/
def emptyStatement : Statement :=
  { type := StatementType.StatementInsert, rowToInsert := emptyRow }

/-- `newTable()`: empty, with no page allocated. -/
def newTable : Table :=
  { numRows := 0, pages := fun _ => none }

/-- Pointwise update of the page array. -/
def setPage (t : Table) (pageNum : Nat) (p : List Nat) : Table :=
  { t with pages := fun i => if i = pageNum then some p else t.pages i }

/-- The bytes of a page as `rowSlot` would see them after its allocation
check: the stored page, or a zeroed page if none is allocated. -/
def pageView (t : Table) (pageNum : Nat) : List Nat :=
  (t.pages pageNum).getD (List.replicate PAGE_SIZE 0)

/-- Well-formedness: every allocated page is exactly `PAGE_SIZE` bytes.
Holds for `newTable` and is preserved by every operation. -/
def Table.wf (t : Table) : Prop :=
  ∀ pageNum p, t.pages pageNum = some p → p.length = PAGE_SIZE

/-! ### RowCodec (`serializeRow` / `deserializeRow`) -/

/-- `serializeRow`: id as 4 little-endian bytes into `[0,4)`, the username
array into `[4,36)`, the email array into `[36,291)`. -/
def serializeRow (source : Row) (destination : List Nat) : List Nat :=
  let d0 := storeSlice destination 0 4 (putUint32LE source.id)
  let d1 := storeSlice d0 4 (4 + COLUMN_USERNAME_SIZE) source.username
  storeSlice d1 (4 + COLUMN_USERNAME_SIZE)
    (4 + COLUMN_USERNAME_SIZE + COLUMN_EMAIL_SIZE) source.email

/-- `deserializeRow`: reads the id and copies the two field windows into the
destination row's fixed arrays (Go `copy` into `destination.Username[:]`). -/
def deserializeRow (source : List Nat) (destination : Row) : Row :=
  { id := getUint32LE (source.take 4)
    username := goCopy destination.username
      ((source.drop 4).take COLUMN_USERNAME_SIZE)
    email := goCopy destination.email
      ((source.drop (4 + COLUMN_USERNAME_SIZE)).take COLUMN_EMAIL_SIZE) }

/-! ### PagedStore (`rowSlot`) -/

/-- `rowSlot`: allocates (zeroed) the page on first access and returns the
table together with the ROW_SIZE byte window of the row. -/
def rowSlot (t : Table) (rowNum : Nat) : Table × List Nat :=
  let pageNum := rowNum / ROWS_PER_PAGE
  let t1 := if (t.pages pageNum).isNone
    then setPage t pageNum (List.replicate PAGE_SIZE 0) else t
  let byteOffset := rowNum % ROWS_PER_PAGE * ROW_SIZE
  (t1, ((t1.pages pageNum).getD []).drop byteOffset |>.take ROW_SIZE)

/-- The slot window as pure data: the `ROW_SIZE` bytes that `rowSlot` returns
(reading an unallocated page as zeros, exactly as allocation would). -/
def slotWindow (t : Table) (rowNum : Nat) : List Nat :=
  ((pageView t (rowNum / ROWS_PER_PAGE)).drop
    (rowNum % ROWS_PER_PAGE * ROW_SIZE)).take ROW_SIZE

/-- Writing `bytes` back through the window returned by `rowSlot`: the Go
slice aliases the page, so the write splices the bytes into the page. The
`none` branch is unreachable right after `rowSlot` has allocated the page. -/
def writeSlot (t : Table) (rowNum : Nat) (bytes : List Nat) : Table :=
  let pageNum := rowNum / ROWS_PER_PAGE
  let byteOffset := rowNum % ROWS_PER_PAGE * ROW_SIZE
  match t.pages pageNum with
  | none => t
  | some page =>
      setPage t pageNum
        (page.take byteOffset ++ bytes ++ page.drop (byteOffset + ROW_SIZE))

/-! ### StatementParser (`prepareStatement`) -/

/-- `prepareStatement` on one input line, mutating a statement passed in
(the main loop passes a fresh zero-valued one). -/
def prepareStatement (line : List Nat) (statement : Statement) :
    PrepareResult × Statement :=
  if List.isPrefixOf (strBytes "insert") line then
    let statement := { statement with type := StatementType.StatementInsert }
    let parts := fields line
    if parts.length < 4 then
      (PrepareResult.PrepareSyntaxError, statement)
    else
      match parseUint (parts.getD 1 []) with
      | none => (PrepareResult.PrepareSyntaxError, statement)
      | some id =>
        let statement := { statement with
          rowToInsert := { statement.rowToInsert with id := id } }
        let username := parts.getD 2 []
        let username := if COLUMN_USERNAME_SIZE ≤ username.length
          then username.take (COLUMN_USERNAME_SIZE - 1) else username
        let statement := { statement with
          rowToInsert := { statement.rowToInsert with
            username := goCopy statement.rowToInsert.username username } }
        let email := parts.getD 3 []
        let email := if COLUMN_EMAIL_SIZE ≤ email.length
          then email.take (COLUMN_EMAIL_SIZE - 1) else email
        let statement := { statement with
          rowToInsert := { statement.rowToInsert with
            email := goCopy statement.rowToInsert.email email } }
        (PrepareResult.PrepareSuccess, statement)
  else if line = strBytes "select" then
    (PrepareResult.PrepareSuccess,
      { statement with type := StatementType.StatementSelect })
  else
    (PrepareResult.PrepareUnrecognizedStatement, statement)

/-! ### Executor -/

/-- `executeInsert`: capacity check, then serialize into `rowSlot(numRows)`
and increment the row count. -/
def executeInsert (statement : Statement) (table : Table) :
    ExecuteResult × Table :=
  if TABLE_MAX_ROWS ≤ table.numRows then
    (ExecuteResult.ExecuteTableFull, table)
  else
    let s := rowSlot table table.numRows
    let t2 := writeSlot s.1 table.numRows
      (serializeRow statement.rowToInsert s.2)
    (ExecuteResult.ExecuteSuccess, { t2 with numRows := t2.numRows + 1 })

/-- The `for i := 0; i < numRows; i++` loop of `executeSelect`, with the
single reused `var row Row`; returns the table (pages may get allocated)
and the rows in emission order. `fuel` is `numRows - i`. -/
def selectLoopAux : Nat → Nat → Table → Row → Table × List Row
  | 0, _, t, _ => (t, [])
  | fuel + 1, i, t, row =>
    let s := rowSlot t i
    let row1 := deserializeRow s.2 row
    let rest := selectLoopAux fuel (i + 1) s.1 row1
    (rest.1, row1 :: rest.2)

/-- `executeSelect`: full scan, decoding and emitting every stored row;
always returns success. -/
def executeSelect (table : Table) : ExecuteResult × Table × List Row :=
  let r := selectLoopAux table.numRows 0 table emptyRow
  (ExecuteResult.ExecuteSuccess, r.1, r.2)

/-- `executeStatement`: dispatch on the statement type. -/
def executeStatement (statement : Statement) (table : Table) :
    ExecuteResult × Table :=
  match statement.type with
  | StatementType.StatementInsert => executeInsert statement table
  | StatementType.StatementSelect =>
      ((executeSelect table).1, (executeSelect table).2.1)

/-- Folding `executeInsert` over a list of statements, collecting results. -/
def insertAll : List Statement → Table → Table × List ExecuteResult
  | [], t => (t, [])
  | s :: ss, t =>
    let r := executeInsert s t
    let rest := insertAll ss r.2
    (rest.1, r.1 :: rest.2)

/-- One iteration of the main loop on a non-meta line: prepare, then execute
on success (parse errors leave the table untouched). -/
def runLine (line : String) (t : Table) : Table :=
  let p := prepareStatement (strBytes line) emptyStatement
  match p.1 with
  | PrepareResult.PrepareSuccess => (executeStatement p.2 t).2
  | _ => t

/-- A table at capacity with no allocated page (used as a concrete input). -/
def fullTable : Table :=
  { numRows := 1400, pages := fun _ => none }

/-! ### Helper lemmas: byte primitives -/

theorem goCopy_length (dst src : List Nat) :
    (goCopy dst src).length = dst.length := by
  simp [goCopy]

theorem goCopy_full (dst src : List Nat) (h : dst.length = src.length) :
    goCopy dst src = src := by
  simp [goCopy, h, List.take_of_length_le, List.drop_eq_nil_of_le]

theorem goCopy_of_le (dst src : List Nat) (h : src.length ≤ dst.length) :
    goCopy dst src = src ++ dst.drop src.length := by
  simp [goCopy, Nat.min_eq_right h, List.take_of_length_le]

theorem storeSlice_exact (buf src : List Nat) (lo hi : Nat)
    (_hlo : lo ≤ hi) (hhi : hi ≤ buf.length) (hs : src.length = hi - lo) :
    storeSlice buf lo hi src = buf.take lo ++ src ++ buf.drop hi := by
  have hd : ((buf.drop lo).take (hi - lo)).length = src.length := by
    simp [hs]
    omega
  rw [storeSlice, goCopy_full _ _ hd]

theorem storeSlice_length (buf src : List Nat) (lo hi : Nat)
    (_hlo : lo ≤ hi) (hhi : hi ≤ buf.length) :
    (storeSlice buf lo hi src).length = buf.length := by
  simp [storeSlice, goCopy_length]
  omega

theorem getUint32LE_putUint32LE (n : Nat) :
    getUint32LE (putUint32LE n) = n % 4294967296 := by
  simp [getUint32LE, putUint32LE, List.getD]
  omega

theorem putUint32LE_length (n : Nat) : (putUint32LE n).length = 4 := rfl

/-- `serializeRow` on a full-size buffer overwrites it completely with the
three encoded fields. -/
theorem serializeRow_eq (r : Row) (buf : List Nat)
    (hu : r.username.length = COLUMN_USERNAME_SIZE)
    (he : r.email.length = COLUMN_EMAIL_SIZE)
    (hb : buf.length = ROW_SIZE) :
    serializeRow r buf = putUint32LE r.id ++ r.username ++ r.email := by
  have hb' : buf.length = 291 := hb
  have hu' : r.username.length = 32 := hu
  have he' : r.email.length = 255 := he
  show storeSlice (storeSlice (storeSlice buf 0 4 (putUint32LE r.id))
      4 36 r.username) 36 291 r.email = _
  rw [storeSlice_exact buf (putUint32LE r.id) 0 4 (by omega) (by omega)
      (by simp [putUint32LE_length])]
  simp only [List.take_zero, List.nil_append]
  have h0 : (putUint32LE r.id ++ buf.drop 4).length = 291 := by
    simp [putUint32LE_length, hb']
  rw [storeSlice_exact _ r.username 4 36 (by omega) (by omega) (by omega)]
  have ht4 : (putUint32LE r.id ++ buf.drop 4).take 4 = putUint32LE r.id :=
    List.take_left' (putUint32LE_length r.id)
  have hd36 : (putUint32LE r.id ++ buf.drop 4).drop 36 = buf.drop 36 := by
    have : (36 : Nat) = 4 + 32 := rfl
    rw [show ((putUint32LE r.id ++ buf.drop 4).drop 36)
          = ((putUint32LE r.id ++ buf.drop 4).drop 4).drop 32 by
        rw [List.drop_drop]]
    rw [List.drop_left' (putUint32LE_length r.id), List.drop_drop]
  rw [ht4, hd36]
  have h1 : (putUint32LE r.id ++ r.username ++ buf.drop 36).length = 291 := by
    simp [putUint32LE_length, hu', hb']
  rw [storeSlice_exact _ r.email 36 291 (by omega) (by omega) (by omega)]
  have ht36 : (putUint32LE r.id ++ r.username ++ buf.drop 36).take 36
      = putUint32LE r.id ++ r.username :=
    List.take_left' (by simp [putUint32LE_length, hu'])
  have hd291 : (putUint32LE r.id ++ r.username ++ buf.drop 36).drop 291 = [] :=
    List.drop_eq_nil_of_le (by omega)
  rw [ht36, hd291, List.append_nil, List.append_assoc]

theorem serializeRow_length (r : Row) (buf : List Nat)
    (hb : buf.length = ROW_SIZE) :
    (serializeRow r buf).length = ROW_SIZE := by
  have hb' : buf.length = 291 := hb
  show (storeSlice (storeSlice (storeSlice buf 0 4 (putUint32LE r.id))
      4 36 r.username) 36 291 r.email).length = 291
  have l0 : (storeSlice buf 0 4 (putUint32LE r.id)).length = 291 := by
    rw [storeSlice_length _ _ _ _ (by omega) (by omega)]
    exact hb'
  have l1 : (storeSlice (storeSlice buf 0 4 (putUint32LE r.id))
      4 36 r.username).length = 291 := by
    rw [storeSlice_length _ _ _ _ (by omega) (by omega)]
    exact l0
  rw [storeSlice_length _ _ _ _ (by omega) (by omega)]
  exact l1

/-- `deserializeRow` on a buffer laid out as three exact fields recovers
them (given a well-formed destination row for the `copy` calls). -/
theorem deserializeRow_of_parts (p u e : List Nat) (prev : Row)
    (hp : p.length = 4) (hu : u.length = COLUMN_USERNAME_SIZE)
    (he : e.length = COLUMN_EMAIL_SIZE)
    (hpu : prev.username.length = COLUMN_USERNAME_SIZE)
    (hpe : prev.email.length = COLUMN_EMAIL_SIZE) :
    deserializeRow (p ++ u ++ e) prev =
      { id := getUint32LE p, username := u, email := e } := by
  have hu' : u.length = 32 := hu
  have he' : e.length = 255 := he
  have hpu' : prev.username.length = 32 := hpu
  have hpe' : prev.email.length = 255 := hpe
  show ({ id := getUint32LE ((p ++ u ++ e).take 4)
          username := goCopy prev.username (((p ++ u ++ e).drop 4).take 32)
          email := goCopy prev.email (((p ++ u ++ e).drop 36).take 255) } : Row)
      = _
  have ht : (p ++ u ++ e).take 4 = p := by
    rw [List.append_assoc]
    exact List.take_left' hp
  have hd4 : (p ++ u ++ e).drop 4 = u ++ e := by
    rw [List.append_assoc]
    exact List.drop_left' hp
  have hdu : ((p ++ u ++ e).drop 4).take 32 = u := by
    rw [hd4]
    exact List.take_left' hu'
  have hde : ((p ++ u ++ e).drop 36).take 255 = e := by
    have : (p ++ u ++ e).drop 36 = ((p ++ u ++ e).drop 4).drop 32 := by
      rw [List.drop_drop]
    rw [this, hd4, List.drop_left' hu']
    exact List.take_of_length_le (by omega)
  rw [ht, hdu, hde, goCopy_full _ _ (by omega), goCopy_full _ _ (by omega)]

/-! ### Helper lemmas: paged store -/

theorem table_ext (t1 t2 : Table) (h1 : t1.numRows = t2.numRows)
    (h2 : ∀ i, t1.pages i = t2.pages i) : t1 = t2 := by
  cases t1
  cases t2
  simp_all
  funext i
  exact h2 i

theorem newTable_wf : Table.wf newTable := by
  intro pageNum p h
  cases h

theorem rowSlot_numRows (t : Table) (r : Nat) :
    (rowSlot t r).1.numRows = t.numRows := by
  unfold rowSlot setPage
  cases h : t.pages (r / ROWS_PER_PAGE) <;> simp [h]

theorem rowSlot_fst_pages (t : Table) (r : Nat) :
    (rowSlot t r).1.pages (r / ROWS_PER_PAGE)
      = some (pageView t (r / ROWS_PER_PAGE)) := by
  unfold rowSlot setPage pageView
  cases h : t.pages (r / ROWS_PER_PAGE) <;> simp [h]

theorem rowSlot_pageView (t : Table) (r j : Nat) :
    pageView (rowSlot t r).1 j = pageView t j := by
  unfold rowSlot setPage pageView
  cases h : t.pages (r / ROWS_PER_PAGE) <;> simp [h]
  by_cases hj : j = r / ROWS_PER_PAGE <;> simp [hj, h]

theorem rowSlot_slotWindow (t : Table) (r k : Nat) :
    slotWindow (rowSlot t r).1 k = slotWindow t k := by
  unfold slotWindow
  rw [rowSlot_pageView]

theorem rowSlot_snd (t : Table) (r : Nat) :
    (rowSlot t r).2 = slotWindow t r := by
  unfold rowSlot slotWindow pageView setPage
  cases h : t.pages (r / ROWS_PER_PAGE) <;> simp [h]

theorem rowSlot_wf (t : Table) (r : Nat) (hwf : Table.wf t) :
    Table.wf (rowSlot t r).1 := by
  unfold rowSlot setPage
  cases h : t.pages (r / ROWS_PER_PAGE) with
  | none =>
    simp [h]
    intro pageNum p hp
    by_cases hj : pageNum = r / ROWS_PER_PAGE
    · simp [hj] at hp
      simp [← hp]
    · simp [hj] at hp
      exact hwf pageNum p hp
  | some page => simpa [h] using hwf

theorem pageView_length (t : Table) (hwf : Table.wf t) (j : Nat) :
    (pageView t j).length = PAGE_SIZE := by
  unfold pageView
  cases h : t.pages j with
  | none => simp
  | some p => simpa using hwf j p h

/-- The slot's byte window always fits inside the page. -/
theorem byteOffset_bound (r : Nat) :
    r % ROWS_PER_PAGE * ROW_SIZE + ROW_SIZE ≤ PAGE_SIZE := by
  have e1 : ROWS_PER_PAGE = 14 := rfl
  have e2 : ROW_SIZE = 291 := rfl
  have e3 : PAGE_SIZE = 4096 := rfl
  have h := Nat.mod_lt r (show 0 < ROWS_PER_PAGE by decide)
  rw [e1] at h ⊢
  rw [e2, e3]
  omega

theorem slotWindow_length (t : Table) (hwf : Table.wf t) (r : Nat) :
    (slotWindow t r).length = ROW_SIZE := by
  have hb := byteOffset_bound r
  unfold slotWindow
  rw [List.length_take, List.length_drop, pageView_length t hwf]
  omega

/-- When the page is already allocated, `rowSlot` changes nothing. -/
theorem rowSlot_of_some (t : Table) (r : Nat) (p : List Nat)
    (h : t.pages (r / ROWS_PER_PAGE) = some p) :
    (rowSlot t r).1 = t
      ∧ (rowSlot t r).2 = (p.drop (r % ROWS_PER_PAGE * ROW_SIZE)).take ROW_SIZE := by
  unfold rowSlot
  simp [h]

theorem rowSlot_idem (t : Table) (r : Nat) :
    rowSlot (rowSlot t r).1 r = ((rowSlot t r).1, (rowSlot t r).2) := by
  obtain ⟨h1, h2⟩ := rowSlot_of_some (rowSlot t r).1 r _ (rowSlot_fst_pages t r)
  rw [show rowSlot (rowSlot t r).1 r
      = ((rowSlot (rowSlot t r).1 r).1, (rowSlot (rowSlot t r).1 r).2) from rfl,
    h1, h2, rowSlot_snd t r]
  rfl

theorem writeSlot_numRows (t : Table) (r : Nat) (bs : List Nat) :
    (writeSlot t r bs).numRows = t.numRows := by
  unfold writeSlot setPage
  cases h : t.pages (r / ROWS_PER_PAGE) <;> simp [h]

/-! ### Helper lemmas: executor -/

theorem executeInsert_full (s : Statement) (t : Table)
    (h : TABLE_MAX_ROWS ≤ t.numRows) :
    executeInsert s t = (ExecuteResult.ExecuteTableFull, t) := by
  unfold executeInsert
  rw [if_pos h]

theorem executeInsert_notFull (s : Statement) (t : Table)
    (h : t.numRows < TABLE_MAX_ROWS) :
    (executeInsert s t).1 = ExecuteResult.ExecuteSuccess
      ∧ (executeInsert s t).2.numRows = t.numRows + 1 := by
  unfold executeInsert
  rw [if_neg (by omega)]
  refine ⟨rfl, ?_⟩
  simp [writeSlot_numRows, rowSlot_numRows]


theorem rowSlot_pages_other (t : Table) (r j : Nat)
    (hj : j ≠ r / ROWS_PER_PAGE) :
    (rowSlot t r).1.pages j = t.pages j := by
  unfold rowSlot setPage
  cases h : t.pages (r / ROWS_PER_PAGE) <;> simp [h, hj]

/-- `writeSlot` on an allocated page splices the bytes into the page. -/
theorem writeSlot_of_some (t : Table) (r : Nat) (bs p : List Nat)
    (h : t.pages (r / ROWS_PER_PAGE) = some p) :
    writeSlot t r bs = setPage t (r / ROWS_PER_PAGE)
      (p.take (r % ROWS_PER_PAGE * ROW_SIZE) ++ bs
        ++ p.drop (r % ROWS_PER_PAGE * ROW_SIZE + ROW_SIZE)) := by
  unfold writeSlot
  simp [h]

/-- Full characterization of a successful insert: the result flag, the new
row count, and the new page array (target slot overwritten in place). -/
theorem executeInsert_notFull_eq (s : Statement) (t : Table)
    (h : t.numRows < TABLE_MAX_ROWS) :
    executeInsert s t
      = (ExecuteResult.ExecuteSuccess,
         { numRows := t.numRows + 1
           pages := fun j =>
             if j = t.numRows / ROWS_PER_PAGE then
               some ((pageView t (t.numRows / ROWS_PER_PAGE)).take
                   (t.numRows % ROWS_PER_PAGE * ROW_SIZE)
                 ++ serializeRow s.rowToInsert (slotWindow t t.numRows)
                 ++ (pageView t (t.numRows / ROWS_PER_PAGE)).drop
                     (t.numRows % ROWS_PER_PAGE * ROW_SIZE + ROW_SIZE))
             else t.pages j }) := by
  have hnot : ¬ TABLE_MAX_ROWS ≤ t.numRows := by omega
  simp only [executeInsert, if_neg hnot]
  rw [rowSlot_snd, writeSlot_of_some _ _ _ _ (rowSlot_fst_pages t t.numRows)]
  refine congrArg _ (table_ext _ _ ?_ ?_)
  · show (setPage (rowSlot t t.numRows).1 _ _).numRows + 1 = t.numRows + 1
    simp [setPage, rowSlot_numRows]
  · intro i
    show (setPage (rowSlot t t.numRows).1 _ _).pages i = _
    unfold setPage
    by_cases hi : i = t.numRows / ROWS_PER_PAGE
    · simp [hi]
    · simp only [hi, if_neg hi]
      exact rowSlot_pages_other t t.numRows i hi

/-- Reading back the slot just spliced into a page of an updated table. -/
theorem slotWindow_update (P : List Nat) (t : Table) (r m : Nat) (bs : List Nat)
    (hP : P.length = PAGE_SIZE) (hbs : bs.length = ROW_SIZE) :
    slotWindow
      { numRows := m
        pages := fun j =>
          if j = r / ROWS_PER_PAGE then
            some (P.take (r % ROWS_PER_PAGE * ROW_SIZE) ++ bs
              ++ P.drop (r % ROWS_PER_PAGE * ROW_SIZE + ROW_SIZE))
          else t.pages j } r = bs := by
  have hoff := byteOffset_bound r
  unfold slotWindow pageView
  simp only [eq_self_iff_true, if_true, Option.getD_some]
  have htl : (P.take (r % ROWS_PER_PAGE * ROW_SIZE)).length
      = r % ROWS_PER_PAGE * ROW_SIZE := by
    rw [List.length_take]
    omega
  rw [List.append_assoc, List.drop_left' htl, List.take_left' hbs]

/-- On a successful insert into a well-formed table, the slot of the old
`numRows` holds exactly the serialization of the inserted row over the
previous window contents. -/
theorem executeInsert_slot (s : Statement) (t : Table)
    (hwf : Table.wf t) (h : t.numRows < TABLE_MAX_ROWS) :
    slotWindow (executeInsert s t).2 t.numRows
      = serializeRow s.rowToInsert (slotWindow t t.numRows) := by
  have hwlen : (slotWindow t t.numRows).length = ROW_SIZE :=
    slotWindow_length t hwf t.numRows
  rw [executeInsert_notFull_eq s t h]
  exact slotWindow_update _ t _ _ _ (pageView_length t hwf _)
    (serializeRow_length _ _ hwlen)

/-- A successful insert touches no page other than the target one. -/
theorem executeInsert_pages_other (s : Statement) (t : Table)
    (h : t.numRows < TABLE_MAX_ROWS) (j : Nat)
    (hj : j ≠ t.numRows / ROWS_PER_PAGE) :
    (executeInsert s t).2.pages j = t.pages j := by
  rw [executeInsert_notFull_eq s t h]
  simp [hj]

/-- Well-formedness of a table with one page replaced by a full-size one. -/
theorem wf_update (t : Table) (m pn : Nat) (np : List Nat)
    (hwf : Table.wf t) (hnp : np.length = PAGE_SIZE) :
    Table.wf { numRows := m
               pages := fun j => if j = pn then some np else t.pages j } := by
  intro pageNum p hp
  dsimp only at hp
  by_cases hj : pageNum = pn
  · rw [if_pos hj] at hp
    injection hp with hp
    rw [← hp]
    exact hnp
  · rw [if_neg hj] at hp
    exact hwf pageNum p hp

theorem executeInsert_wf (s : Statement) (t : Table) (hwf : Table.wf t) :
    Table.wf (executeInsert s t).2 := by
  by_cases h : TABLE_MAX_ROWS ≤ t.numRows
  · rw [executeInsert_full s t h]
    exact hwf
  · have hoff := byteOffset_bound t.numRows
    have hpv : (pageView t (t.numRows / ROWS_PER_PAGE)).length = PAGE_SIZE :=
      pageView_length t hwf _
    have hslen : (serializeRow s.rowToInsert (slotWindow t t.numRows)).length
        = ROW_SIZE := serializeRow_length _ _ (slotWindow_length t hwf t.numRows)
    rw [executeInsert_notFull_eq s t (by omega)]
    exact wf_update t _ _ _ hwf
      (by
        simp only [List.length_append, List.length_take, List.length_drop, hslen]
        omega)

/-! ### Helper lemmas: select loop -/

/-- Deserializing a full-size window ignores the previous row contents
(every byte of the fixed arrays is overwritten). -/
theorem deserializeRow_indep (w : List Nat) (prev : Row)
    (hw : w.length = ROW_SIZE)
    (hpu : prev.username.length = COLUMN_USERNAME_SIZE)
    (hpe : prev.email.length = COLUMN_EMAIL_SIZE) :
    deserializeRow w prev = deserializeRow w emptyRow := by
  have hw' : w.length = 291 := hw
  unfold deserializeRow
  have hu1 : ((w.drop 4).take COLUMN_USERNAME_SIZE).length
      = COLUMN_USERNAME_SIZE := by
    simp [COLUMN_USERNAME_SIZE]
    omega
  have he1 : ((w.drop (4 + COLUMN_USERNAME_SIZE)).take COLUMN_EMAIL_SIZE).length
      = COLUMN_EMAIL_SIZE := by
    simp [COLUMN_USERNAME_SIZE, COLUMN_EMAIL_SIZE]
    omega
  rw [goCopy_full _ _ (by rw [hu1, hpu]), goCopy_full _ _ (by rw [he1, hpe]),
    goCopy_full _ _ (by rw [hu1]; simp [emptyRow]),
    goCopy_full _ _ (by rw [he1]; simp [emptyRow])]

theorem deserializeRow_username_length (w : List Nat) (prev : Row) :
    (deserializeRow w prev).username.length = prev.username.length := by
  unfold deserializeRow
  exact goCopy_length _ _

theorem deserializeRow_email_length (w : List Nat) (prev : Row) :
    (deserializeRow w prev).email.length = prev.email.length := by
  unfold deserializeRow
  exact goCopy_length _ _

theorem selectLoopAux_numRows (fuel : Nat) :
    ∀ (i : Nat) (t : Table) (row : Row),
    (selectLoopAux fuel i t row).1.numRows = t.numRows := by
  induction fuel with
  | zero => intro i t row; rfl
  | succ fuel ih =>
    intro i t row
    show (selectLoopAux fuel (i + 1) (rowSlot t i).1 _).1.numRows = t.numRows
    rw [ih, rowSlot_numRows]

theorem selectLoopAux_rows (fuel : Nat) :
    ∀ (i : Nat) (t : Table) (row : Row), Table.wf t →
    row.username.length = COLUMN_USERNAME_SIZE →
    row.email.length = COLUMN_EMAIL_SIZE →
    (selectLoopAux fuel i t row).2
      = (List.range' i fuel).map
          (fun k => deserializeRow (slotWindow t k) emptyRow) := by
  induction fuel with
  | zero => intro i t row _ _ _; rfl
  | succ fuel ih =>
    intro i t row hwf hu he
    have hw : ((rowSlot t i).2).length = ROW_SIZE := by
      rw [rowSlot_snd]
      exact slotWindow_length t hwf i
    have hrow1 : deserializeRow (rowSlot t i).2 row
        = deserializeRow (slotWindow t i) emptyRow := by
      rw [deserializeRow_indep _ _ hw hu he, rowSlot_snd]
    show (deserializeRow (rowSlot t i).2 row
        :: (selectLoopAux fuel (i + 1) (rowSlot t i).1
              (deserializeRow (rowSlot t i).2 row)).2)
      = _
    rw [ih (i + 1) (rowSlot t i).1 _ (rowSlot_wf t i hwf)
        (by rw [deserializeRow_username_length]; exact hu)
        (by rw [deserializeRow_email_length]; exact he),
      hrow1]
    have hmaps : (List.range' (i + 1) fuel).map
          (fun k => deserializeRow (slotWindow (rowSlot t i).1 k) emptyRow)
        = (List.range' (i + 1) fuel).map
          (fun k => deserializeRow (slotWindow t k) emptyRow) := by
      apply List.map_congr_left
      intro k _
      rw [rowSlot_slotWindow]
    rw [hmaps]
    rfl

/-- The list of rows `executeSelect` emits, one per stored row in ascending
index order. -/
theorem executeSelect_rows (t : Table) (hwf : Table.wf t) :
    (executeSelect t).2.2
      = (List.range t.numRows).map
          (fun k => deserializeRow (slotWindow t k) emptyRow) := by
  unfold executeSelect
  rw [selectLoopAux_rows t.numRows 0 t emptyRow hwf (by simp [emptyRow])
      (by simp [emptyRow]),
    List.range_eq_range']

/-! ### Helper lemmas: parser -/

theorem prepareStatement_short_eq (line : List Nat) (st : Statement)
    (h : List.isPrefixOf (strBytes "insert") line = true)
    (hlen : (fields line).length < 4) :
    prepareStatement line st
      = (PrepareResult.PrepareSyntaxError,
         { st with type := StatementType.StatementInsert }) := by
  simp only [prepareStatement, h, if_true, hlen, if_pos hlen]

theorem prepareStatement_badId_eq (line : List Nat) (st : Statement)
    (h : List.isPrefixOf (strBytes "insert") line = true)
    (hlen : ¬ (fields line).length < 4)
    (hp : parseUint ((fields line).getD 1 []) = none) :
    prepareStatement line st
      = (PrepareResult.PrepareSyntaxError,
         { st with type := StatementType.StatementInsert }) := by
  simp only [prepareStatement, h, if_true, if_neg hlen, hp]

theorem prepareStatement_success_eq (line : List Nat) (st : Statement) (n : Nat)
    (h : List.isPrefixOf (strBytes "insert") line = true)
    (hlen : ¬ (fields line).length < 4)
    (hp : parseUint ((fields line).getD 1 []) = some n) :
    prepareStatement line st
      = (PrepareResult.PrepareSuccess,
         { type := StatementType.StatementInsert
           rowToInsert :=
             { id := n
               username := goCopy st.rowToInsert.username
                 (if COLUMN_USERNAME_SIZE ≤ ((fields line).getD 2 []).length
                  then ((fields line).getD 2 []).take (COLUMN_USERNAME_SIZE - 1)
                  else (fields line).getD 2 [])
               email := goCopy st.rowToInsert.email
                 (if COLUMN_EMAIL_SIZE ≤ ((fields line).getD 3 []).length
                  then ((fields line).getD 3 []).take (COLUMN_EMAIL_SIZE - 1)
                  else (fields line).getD 3 []) } }) := by
  simp only [prepareStatement, h, if_true, if_neg hlen, hp]

/-! ### Helper lemmas: insert sequences -/

theorem insertAll_notFull (ss : List Statement) :
    ∀ t : Table, t.numRows + ss.length ≤ TABLE_MAX_ROWS →
    (insertAll ss t).1.numRows = t.numRows + ss.length
    ∧ ∀ res ∈ (insertAll ss t).2, res = ExecuteResult.ExecuteSuccess := by
  induction ss with
  | nil =>
    intro t _
    exact ⟨rfl, by intro res hres; cases hres⟩
  | cons s ss ih =>
    intro t h
    rw [List.length_cons] at h
    have hlt : t.numRows < TABLE_MAX_ROWS := by omega
    obtain ⟨h1, h2⟩ := executeInsert_notFull s t hlt
    obtain ⟨ihn, ihr⟩ := ih (executeInsert s t).2 (by rw [h2]; omega)
    refine ⟨?_, ?_⟩
    · show (insertAll ss (executeInsert s t).2).1.numRows = _
      rw [ihn, h2, List.length_cons]
      omega
    · intro res hres
      rcases List.mem_cons.mp hres with hres | hres
      · rw [hres, h1]
      · exact ihr res hres

/-! ### Claims -/

/-- C1: with `numRows = TABLE_MAX_ROWS` an insert returns `ExecuteTableFull`
and leaves the table (row count and every page byte) unchanged; after 1400
successful inserts from the empty table the row count is 1400, every one of
those inserts succeeded, and any further insert returns `ExecuteTableFull`
without mutation; and in general every insert either fails full with no
mutation or fully applies: success flag, count incremented by one, and the
row serialized into the slot of the old `numRows`. -/
theorem C1_capacity_atomicity :
    (∀ (s : Statement) (t : Table), t.numRows = TABLE_MAX_ROWS →
      executeInsert s t = (ExecuteResult.ExecuteTableFull, t))
    ∧ (∀ ss : List Statement, ss.length = 1400 →
        (insertAll ss newTable).1.numRows = 1400
        ∧ (∀ res ∈ (insertAll ss newTable).2,
            res = ExecuteResult.ExecuteSuccess)
        ∧ ∀ s : Statement, executeInsert s (insertAll ss newTable).1
            = (ExecuteResult.ExecuteTableFull, (insertAll ss newTable).1))
    ∧ (∀ (s : Statement) (t : Table), Table.wf t →
        executeInsert s t = (ExecuteResult.ExecuteTableFull, t)
        ∨ ((executeInsert s t).1 = ExecuteResult.ExecuteSuccess
            ∧ (executeInsert s t).2.numRows = t.numRows + 1
            ∧ slotWindow (executeInsert s t).2 t.numRows
                = serializeRow s.rowToInsert (slotWindow t t.numRows))) := by
  refine ⟨?_, ?_, ?_⟩
  · intro s t h
    exact executeInsert_full s t (le_of_eq h.symm)
  · intro ss hlen
    have h0 : newTable.numRows + ss.length ≤ TABLE_MAX_ROWS := by
      rw [hlen]
      decide
    obtain ⟨h1, h2⟩ := insertAll_notFull ss newTable h0
    have hn : (insertAll ss newTable).1.numRows = 1400 := by
      rw [h1, hlen]
      simp [newTable]
    exact ⟨hn, h2, fun s => executeInsert_full s _ (by rw [hn]; decide)⟩
  · intro s t hwf
    by_cases h : TABLE_MAX_ROWS ≤ t.numRows
    · exact Or.inl (executeInsert_full s t h)
    · have hlt : t.numRows < TABLE_MAX_ROWS := by omega
      obtain ⟨ha, hb⟩ := executeInsert_notFull s t hlt
      exact Or.inr ⟨ha, hb, executeInsert_slot s t hwf hlt⟩

theorem C1_witness :
    (executeInsert emptyStatement fullTable
        = (ExecuteResult.ExecuteTableFull, fullTable))
    ∧ (insertAll (List.replicate 1400 emptyStatement) newTable).1.numRows = 1400
    ∧ (executeInsert emptyStatement newTable
          = (ExecuteResult.ExecuteTableFull, newTable)
        ∨ ((executeInsert emptyStatement newTable).1
              = ExecuteResult.ExecuteSuccess
            ∧ (executeInsert emptyStatement newTable).2.numRows
                = newTable.numRows + 1
            ∧ slotWindow (executeInsert emptyStatement newTable).2
                  newTable.numRows
                = serializeRow emptyStatement.rowToInsert
                    (slotWindow newTable newTable.numRows))) :=
  ⟨C1_capacity_atomicity.1 emptyStatement fullTable rfl,
   (C1_capacity_atomicity.2.1 (List.replicate 1400 emptyStatement)
      (by rw [List.length_replicate])).1,
   C1_capacity_atomicity.2.2 emptyStatement newTable
     (fun pageNum p hp => Option.noConfusion hp)⟩

/-- C2: serialize-then-deserialize recovers the row exactly — the id (any
`uint32` value) and the full byte content of the fixed username and email
arrays, hence in particular their prefixes up to any content length. -/
theorem C2_roundtrip (r : Row) (buf : List Nat) (prev : Row)
    (hid : r.id < 4294967296)
    (hu : r.username.length = COLUMN_USERNAME_SIZE)
    (he : r.email.length = COLUMN_EMAIL_SIZE)
    (hb : buf.length = ROW_SIZE)
    (hpu : prev.username.length = COLUMN_USERNAME_SIZE)
    (hpe : prev.email.length = COLUMN_EMAIL_SIZE) :
    deserializeRow (serializeRow r buf) prev = r := by
  rw [serializeRow_eq r buf hu he hb,
    deserializeRow_of_parts (putUint32LE r.id) r.username r.email prev
      (putUint32LE_length r.id) hu he hpu hpe,
    getUint32LE_putUint32LE]
  cases r with
  | mk i u e =>
    simp only [Row.mk.injEq]
    exact ⟨Nat.mod_eq_of_lt hid, trivial, trivial⟩

/-- A concrete row with short username/email content, padded as the fixed
arrays hold it. -/
def witnessRow : Row :=
  { id := 7
    username := strBytes "alice" ++ List.replicate 27 0
    email := strBytes "a@b.c" ++ List.replicate 250 0 }

set_option maxRecDepth 10000 in
theorem C2_witness :
    deserializeRow (serializeRow witnessRow (List.replicate 291 9)) emptyRow
      = witnessRow :=
  C2_roundtrip witnessRow (List.replicate 291 9) emptyRow (by decide)
    (by decide) (by decide) (by decide) (by decide) (by decide)

/-- C3: for `rowIndex < TABLE_MAX_ROWS`, `rowSlot` returns the ROW_SIZE
window at byte offset `(rowIndex % ROWS_PER_PAGE) * ROW_SIZE` of page
`rowIndex / ROWS_PER_PAGE` (as held in the returned table and as a pure
function of the original table), allocates that page zeroed when absent,
changes nothing when it is present, and a second call with the same index
returns the identical table and window. -/
theorem C3_rowSlot_addressing (t : Table) (r : Nat) (_h : r < TABLE_MAX_ROWS) :
    (rowSlot t r).2
        = ((pageView (rowSlot t r).1 (r / ROWS_PER_PAGE)).drop
            (r % ROWS_PER_PAGE * ROW_SIZE)).take ROW_SIZE
    ∧ (rowSlot t r).2 = slotWindow t r
    ∧ (t.pages (r / ROWS_PER_PAGE) = none →
        (rowSlot t r).1.pages (r / ROWS_PER_PAGE)
          = some (List.replicate PAGE_SIZE 0))
    ∧ (∀ p, t.pages (r / ROWS_PER_PAGE) = some p → (rowSlot t r).1 = t)
    ∧ rowSlot (rowSlot t r).1 r = ((rowSlot t r).1, (rowSlot t r).2) := by
  refine ⟨?_, rowSlot_snd t r, ?_, ?_, rowSlot_idem t r⟩
  · rw [show ((pageView (rowSlot t r).1 (r / ROWS_PER_PAGE)).drop
          (r % ROWS_PER_PAGE * ROW_SIZE)).take ROW_SIZE
        = slotWindow (rowSlot t r).1 r from rfl,
      rowSlot_slotWindow]
    exact rowSlot_snd t r
  · intro hn
    rw [rowSlot_fst_pages t r]
    simp [pageView, hn]
  · intro p hp
    exact (rowSlot_of_some t r p hp).1

theorem C3_witness :
    (rowSlot fullTable 20).2 = slotWindow fullTable 20 :=
  (C3_rowSlot_addressing fullTable 20 (by decide)).2.1

/-- C4 counterexample: the line `insert 1 a b c` tokenizes into 5 fields,
yet the parser accepts it — more than 4 tokens does NOT yield a syntax
error, contrary to the claim. -/
theorem C4_counterexample :
    (fields (strBytes "insert 1 a b c")).length = 5
    ∧ (prepareStatement (strBytes "insert 1 a b c") emptyStatement).1
        = PrepareResult.PrepareSuccess := by
  decide

/-- C4 (amended): for a line starting with `insert`, the parser returns a
syntax error exactly when the line has fewer than 4 whitespace-separated
fields or the second field fails to parse as a 32-bit unsigned decimal;
four or more fields are accepted, tokens beyond the fourth being ignored. -/
theorem C4_amended_syntax (line : List Nat) (st : Statement)
    (h : List.isPrefixOf (strBytes "insert") line = true) :
    (prepareStatement line st).1 = PrepareResult.PrepareSyntaxError
      ↔ ((fields line).length < 4
          ∨ parseUint ((fields line).getD 1 []) = none) := by
  by_cases h4 : (fields line).length < 4
  · rw [prepareStatement_short_eq line st h h4]
    simp [h4]
  · cases hp : parseUint ((fields line).getD 1 []) with
    | none =>
      rw [prepareStatement_badId_eq line st h h4 hp]
      simp [h4]
    | some n =>
      rw [prepareStatement_success_eq line st n h h4 hp]
      simp [h4]

theorem C4_witness :
    ((prepareStatement (strBytes "insert x y z") emptyStatement).1
        = PrepareResult.PrepareSyntaxError
      ↔ ((fields (strBytes "insert x y z")).length < 4
          ∨ parseUint ((fields (strBytes "insert x y z")).getD 1 [])
              = none)) :=
  C4_amended_syntax (strBytes "insert x y z") emptyStatement (by decide)

/-- C5 counterexample: serializing a row into a buffer previously filled
with the byte 7 leaves a 0 — the trailing byte of the row's fixed username
array — at position 35, not the previous buffer byte 7: the claim that
unused trailing bytes of the field windows are retained is false. -/
theorem C5_counterexample :
    ((serializeRow
        { id := 1
          username := 97 :: List.replicate 31 0
          email := List.replicate 255 0 }
        (List.replicate 291 7)).getD 35 0 = 0)
    ∧ (List.replicate 291 7).getD 35 0 = 7 := by
  decide

/-- C5 (amended): `serializeRow` overwrites the whole ROW_SIZE window: the
id bytes then the full 32-byte username array then the full 255-byte email
array; trailing bytes of the field windows come from the row's own arrays
(zeros for parser-built rows), never from the previous buffer contents. -/
theorem C5_overwrite (r : Row) (buf : List Nat)
    (hu : r.username.length = COLUMN_USERNAME_SIZE)
    (he : r.email.length = COLUMN_EMAIL_SIZE)
    (hb : buf.length = ROW_SIZE) :
    serializeRow r buf = putUint32LE r.id ++ r.username ++ r.email :=
  serializeRow_eq r buf hu he hb

set_option maxRecDepth 10000 in
theorem C5_witness :
    serializeRow witnessRow (List.replicate 291 7)
      = putUint32LE witnessRow.id ++ witnessRow.username
        ++ witnessRow.email :=
  C5_overwrite witnessRow (List.replicate 291 7) (by decide) (by decide)
    (by decide)

set_option maxRecDepth 400000 in
/-- C6: `executeSelect` always succeeds, emits exactly the decoded rows
`0, 1, …, numRows-1` in ascending index (insertion) order, emits nothing on
an empty table, and applies no filtering or sorting: inserting ids 3, 1, 2
through the full parse-and-execute pipeline and selecting returns the ids
in exactly that order. -/
theorem C6_select :
    (∀ t : Table, (executeSelect t).1 = ExecuteResult.ExecuteSuccess)
    ∧ (∀ t : Table, Table.wf t →
        (executeSelect t).2.2
          = (List.range t.numRows).map
              (fun k => deserializeRow (slotWindow t k) emptyRow))
    ∧ (∀ t : Table, t.numRows = 0 → (executeSelect t).2.2 = [])
    ∧ ((executeSelect (runLine "insert 2 e f" (runLine "insert 1 c d"
          (runLine "insert 3 a b" newTable)))).2.2.map Row.id
        = [3, 1, 2]) := by
  refine ⟨fun t => rfl, fun t hwf => executeSelect_rows t hwf, ?_, by decide⟩
  intro t h0
  show (selectLoopAux t.numRows 0 t emptyRow).2 = []
  rw [h0]
  rfl

theorem C6_witness :
    ((executeSelect newTable).2.2
        = (List.range newTable.numRows).map
            (fun k => deserializeRow (slotWindow newTable k) emptyRow))
    ∧ (executeSelect newTable).2.2 = [] :=
  ⟨C6_select.2.1 newTable (fun _pageNum _p hp => Option.noConfusion hp),
   C6_select.2.2.1 newTable rfl⟩

/-- Copying into a zero-initialized fixed array: the content followed by
the untouched zero tail. -/
theorem goCopy_zeroPad (cap : Nat) (src : List Nat) (h : src.length ≤ cap) :
    goCopy (List.replicate cap 0) src
      = src ++ List.replicate (cap - src.length) 0 := by
  rw [goCopy_of_le _ _ (by simpa using h)]
  simp

/-- C7: on a successfully parsed insert line, a username token of length
at least 32 is stored truncated to exactly its first 31 bytes (the 32nd
array byte staying zero), a shorter one is stored unmodified (zero-padded
tail of the fixed array); likewise email at 255/254. No character
validation is applied: any byte contents pass through. -/
theorem C7_truncation (line : List Nat) (n : Nat)
    (h : List.isPrefixOf (strBytes "insert") line = true)
    (hlen : ¬ (fields line).length < 4)
    (hp : parseUint ((fields line).getD 1 []) = some n) :
    (COLUMN_USERNAME_SIZE ≤ ((fields line).getD 2 []).length →
      (prepareStatement line emptyStatement).2.rowToInsert.username
        = ((fields line).getD 2 []).take (COLUMN_USERNAME_SIZE - 1)
          ++ List.replicate 1 0)
    ∧ (((fields line).getD 2 []).length < COLUMN_USERNAME_SIZE →
      (prepareStatement line emptyStatement).2.rowToInsert.username
        = (fields line).getD 2 []
          ++ List.replicate
              (COLUMN_USERNAME_SIZE - ((fields line).getD 2 []).length) 0)
    ∧ (COLUMN_EMAIL_SIZE ≤ ((fields line).getD 3 []).length →
      (prepareStatement line emptyStatement).2.rowToInsert.email
        = ((fields line).getD 3 []).take (COLUMN_EMAIL_SIZE - 1)
          ++ List.replicate 1 0)
    ∧ (((fields line).getD 3 []).length < COLUMN_EMAIL_SIZE →
      (prepareStatement line emptyStatement).2.rowToInsert.email
        = (fields line).getD 3 []
          ++ List.replicate
              (COLUMN_EMAIL_SIZE - ((fields line).getD 3 []).length) 0) := by
  have eu : COLUMN_USERNAME_SIZE = 32 := rfl
  have ee : COLUMN_EMAIL_SIZE = 255 := rfl
  rw [prepareStatement_success_eq line emptyStatement n h hlen hp]
  refine ⟨?_, ?_, ?_, ?_⟩
  · intro hc
    have hl : (((fields line).getD 2 []).take
        (COLUMN_USERNAME_SIZE - 1)).length = COLUMN_USERNAME_SIZE - 1 := by
      rw [List.length_take]
      rw [eu] at hc ⊢
      omega
    dsimp only
    rw [if_pos hc]
    show goCopy (List.replicate COLUMN_USERNAME_SIZE 0) _ = _
    rw [goCopy_zeroPad _ _ (by rw [hl]; omega), hl]
    congr 2
  · intro hc
    dsimp only
    rw [if_neg (by omega)]
    show goCopy (List.replicate COLUMN_USERNAME_SIZE 0) _ = _
    rw [goCopy_zeroPad _ _ (by omega)]
  · intro hc
    have hl : (((fields line).getD 3 []).take
        (COLUMN_EMAIL_SIZE - 1)).length = COLUMN_EMAIL_SIZE - 1 := by
      rw [List.length_take]
      rw [ee] at hc ⊢
      omega
    dsimp only
    rw [if_pos hc]
    show goCopy (List.replicate COLUMN_EMAIL_SIZE 0) _ = _
    rw [goCopy_zeroPad _ _ (by rw [hl]; omega), hl]
    congr 2
  · intro hc
    dsimp only
    rw [if_neg (by omega)]
    show goCopy (List.replicate COLUMN_EMAIL_SIZE 0) _ = _
    rw [goCopy_zeroPad _ _ (by omega)]

theorem C7_witness :
    (prepareStatement
        (strBytes "insert 1 aaaaaaaaaaaaaaaaaaaaaaaaaaaaaaaaaaaa bb")
        emptyStatement).2.rowToInsert.username
      = ((fields
            (strBytes "insert 1 aaaaaaaaaaaaaaaaaaaaaaaaaaaaaaaaaaaa bb")
          ).getD 2 []).take (COLUMN_USERNAME_SIZE - 1)
        ++ List.replicate 1 0 :=
  (C7_truncation
      (strBytes "insert 1 aaaaaaaaaaaaaaaaaaaaaaaaaaaaaaaaaaaa bb") 1
      (by decide) (by decide) (by decide)).1 (by decide)

/-- C8: the table starts empty, a successful insert increments the row
count by exactly one while a failed one leaves the table untouched, select
preserves the count, and `numRows ≤ TABLE_MAX_ROWS` is preserved (and the
count never shrinks) across every statement execution. -/
theorem C8_invariant :
    newTable.numRows = 0
    ∧ (∀ (s : Statement) (t : Table),
        ((executeInsert s t).1 = ExecuteResult.ExecuteSuccess
          ∧ (executeInsert s t).2.numRows = t.numRows + 1)
        ∨ ((executeInsert s t).1 = ExecuteResult.ExecuteTableFull
          ∧ (executeInsert s t).2 = t))
    ∧ (∀ t : Table, (executeSelect t).2.1.numRows = t.numRows)
    ∧ (∀ (s : Statement) (t : Table), t.numRows ≤ TABLE_MAX_ROWS →
        (executeStatement s t).2.numRows ≤ TABLE_MAX_ROWS)
    ∧ (∀ (s : Statement) (t : Table),
        t.numRows ≤ (executeStatement s t).2.numRows) := by
  have hsel : ∀ t : Table, (executeSelect t).2.1.numRows = t.numRows := by
    intro t
    show (selectLoopAux t.numRows 0 t emptyRow).1.numRows = t.numRows
    exact selectLoopAux_numRows t.numRows 0 t emptyRow
  have hins : ∀ (s : Statement) (t : Table),
      ((executeInsert s t).1 = ExecuteResult.ExecuteSuccess
        ∧ (executeInsert s t).2.numRows = t.numRows + 1)
      ∨ ((executeInsert s t).1 = ExecuteResult.ExecuteTableFull
        ∧ (executeInsert s t).2 = t) := by
    intro s t
    by_cases h : TABLE_MAX_ROWS ≤ t.numRows
    · refine Or.inr ⟨?_, ?_⟩ <;> rw [executeInsert_full s t h]
    · exact Or.inl (executeInsert_notFull s t (by omega))
  refine ⟨rfl, hins, hsel, ?_, ?_⟩
  · intro s t h
    cases hst : s.type with
    | StatementInsert =>
      simp only [executeStatement, hst]
      by_cases hf : TABLE_MAX_ROWS ≤ t.numRows
      · rw [executeInsert_full s t hf]
        exact h
      · rw [(executeInsert_notFull s t (by omega)).2]
        omega
    | StatementSelect =>
      simp only [executeStatement, hst]
      rw [hsel t]
      exact h
  · intro s t
    cases hst : s.type with
    | StatementInsert =>
      simp only [executeStatement, hst]
      by_cases hf : TABLE_MAX_ROWS ≤ t.numRows
      · rw [executeInsert_full s t hf]
      · rw [(executeInsert_notFull s t (by omega)).2]
        omega
    | StatementSelect =>
      simp only [executeStatement, hst]
      rw [hsel t]

theorem C8_witness :
    (executeStatement emptyStatement newTable).2.numRows ≤ TABLE_MAX_ROWS :=
  C8_invariant.2.2.2.1 emptyStatement newTable (by decide)

/-- C9: under `rowIndex < TABLE_MAX_ROWS`, the page number computed by
`rowSlot` is below `TABLE_MAX_PAGES`, the byte window lies entirely inside
the `PAGE_SIZE` page, and the windows of two distinct row indices are
disjoint (different page, or non-overlapping byte ranges on the same one). -/
theorem C9_bounds (r : Nat) (h : r < TABLE_MAX_ROWS) :
    r / ROWS_PER_PAGE < TABLE_MAX_PAGES
    ∧ r % ROWS_PER_PAGE * ROW_SIZE + ROW_SIZE ≤ PAGE_SIZE
    ∧ ∀ r2, r2 < TABLE_MAX_ROWS → r ≠ r2 →
        (r / ROWS_PER_PAGE ≠ r2 / ROWS_PER_PAGE
          ∨ r % ROWS_PER_PAGE * ROW_SIZE + ROW_SIZE
              ≤ r2 % ROWS_PER_PAGE * ROW_SIZE
          ∨ r2 % ROWS_PER_PAGE * ROW_SIZE + ROW_SIZE
              ≤ r % ROWS_PER_PAGE * ROW_SIZE) := by
  have e1 : ROWS_PER_PAGE = 14 := rfl
  have e2 : ROW_SIZE = 291 := rfl
  have e4 : TABLE_MAX_ROWS = 1400 := rfl
  have e5 : TABLE_MAX_PAGES = 100 := rfl
  rw [e4] at h
  refine ⟨?_, byteOffset_bound r, ?_⟩
  · rw [e1, e5]
    omega
  · intro r2 h2 hne
    rw [e4] at h2
    rw [e1, e2]
    omega

theorem C9_witness :
    ((0 : Nat) / ROWS_PER_PAGE < TABLE_MAX_PAGES)
    ∧ ((0 : Nat) / ROWS_PER_PAGE ≠ 15 / ROWS_PER_PAGE
        ∨ (0 : Nat) % ROWS_PER_PAGE * ROW_SIZE + ROW_SIZE
            ≤ 15 % ROWS_PER_PAGE * ROW_SIZE
        ∨ 15 % ROWS_PER_PAGE * ROW_SIZE + ROW_SIZE
            ≤ (0 : Nat) % ROWS_PER_PAGE * ROW_SIZE) :=
  ⟨(C9_bounds 0 (by decide)).1,
   (C9_bounds 0 (by decide)).2.2 15 (by decide) (by decide)⟩

/-- C10: any line whose raw text begins with the bytes `insert` is handled
by the insert branch — the statement type is set to insert and the outcome
is never `PrepareUnrecognizedStatement` — even when those bytes start a
longer first token: `insertions 1 a b` parses successfully as an insert of
id 1. -/
theorem C10_prefix_dispatch :
    (∀ (line : List Nat) (st : Statement),
      List.isPrefixOf (strBytes "insert") line = true →
        (prepareStatement line st).2.type = StatementType.StatementInsert
        ∧ (prepareStatement line st).1
            ≠ PrepareResult.PrepareUnrecognizedStatement)
    ∧ (prepareStatement (strBytes "insertions 1 a b") emptyStatement).1
        = PrepareResult.PrepareSuccess
    ∧ (prepareStatement (strBytes "insertions 1 a b")
        emptyStatement).2.rowToInsert.id = 1 := by
  refine ⟨?_, by decide, by decide⟩
  intro line st h
  by_cases h4 : (fields line).length < 4
  · rw [prepareStatement_short_eq line st h h4]
    exact ⟨rfl, by simp⟩
  · cases hp : parseUint ((fields line).getD 1 []) with
    | none =>
      rw [prepareStatement_badId_eq line st h h4 hp]
      exact ⟨rfl, by simp⟩
    | some n =>
      rw [prepareStatement_success_eq line st n h h4 hp]
      exact ⟨rfl, by simp⟩

theorem C10_witness :
    (prepareStatement (strBytes "insert") emptyStatement).2.type
        = StatementType.StatementInsert
    ∧ (prepareStatement (strBytes "insert") emptyStatement).1
        ≠ PrepareResult.PrepareUnrecognizedStatement :=
  C10_prefix_dispatch.1 (strBytes "insert") emptyStatement (by decide)
